import Mathlib

/-!
Shallow embedding of the Firmata protocol engine of this repository
(`firmata.js`): the byte-stream frame parser of the transport `data`
handler, the MIDI/SysEx decode handlers that mutate board state, the
outbound command builders (`pinMode`, `digitalWrite`, `digitalRead`),
user SysEx registration (`sysexResponse`) and the `Board.encode` /
`Board.decode` 7-bit codecs.

Conventions of the embedding:
* JS numbers holding byte/bit data are modelled as `Nat`; where the JS
  32-bit signed semantics of `<<` matters it is made explicit
  (`jsShl32`, `jsShl32Int`, `jsNot32`).
* JS strings are modelled as `List Char`; JS arrays as `List`.
* Fields that are `undefined`/`null` until first assignment are
  modelled as `Option`.
* Code that would throw (`TypeError` on an out-of-range element
  access, explicit `throw new Error`) is modelled with
  `Except String`.
* The board's `emit` is synchronous in Node; the constructor-installed
  listeners (`reportversion`, `queryfirmware`) and the one-shot
  listeners registered by `queryCapabilities` / `queryAnalogMapping`
  are folded into `emitEv`.  Emitted events, dispatched frames and
  bytes handed to the transport are accumulated in observation logs
  (`events`, `dispatched`, `writes`) of the state.
* Module-level sensor caches of device-specific handlers
  (IR remote, motion sensor, I2C input cache) live outside the Board
  object and outside the specified core; they are omitted, and the
  parser theorems are parametric in the SysEx dispatch table.
-/

/-! ## Protocol constants (from the constant block of firmata.js) -/

def ANALOG_MAPPING_QUERY : Nat := 0x69
def ANALOG_MAPPING_RESPONSE : Nat := 0x6A
def ANALOG_MESSAGE : Nat := 0xE0
def CAPABILITY_QUERY : Nat := 0x6B
def CAPABILITY_RESPONSE : Nat := 0x6C
def DIGITAL_MESSAGE : Nat := 0x90
def END_SYSEX : Nat := 0xF7
def PIN_MODE : Nat := 0xF4
def PIN_STATE_RESPONSE : Nat := 0x6E
def QUERY_FIRMWARE : Nat := 0x79
def REPORT_VERSION : Nat := 0xF9
def SAMPLING_INTERVAL : Nat := 0x7A
def START_SYSEX : Nat := 0xF0
def STRING_DATA : Nat := 0x71
def I2C_REPLY : Nat := 0x77
def PING_READ : Nat := 0x75
def STEPPER : Nat := 0x72
def MICRODUINO_OLED : Nat := 0x01
def MICRODUINO_IBB : Nat := 0x0C

def KEY_PRESSED : Nat := 0
def KEY_RELEASED : Nat := 1

/-! Pin modes (`this.MODES` in the Board constructor). -/

def MODES_INPUT : Nat := 0x00
def MODES_OUTPUT : Nat := 0x01
def MODES_ANALOG : Nat := 0x02
def MODES_PWM : Nat := 0x03

/-- `Object.keys(board.MODES).map(...)`: the mode values in insertion
order of the `MODES` object literal. -/
def MODES_LIST : List Nat :=
  [0x00, 0x01, 0x02, 0x03, 0x04, 0x05, 0x06, 0x07, 0x08, 0x0A, 0x0B, 0x7F, 0x75, 0x10]

/-! ## JS 32-bit bitwise helpers -/

/-- JS `a << b` (ToInt32 semantics, shift count mod 32), as the
unsigned 32-bit residue; bit tests and truthiness agree with the
signed value. -/
def jsShl32 (a b : Nat) : Nat := (a <<< (b % 32)) % 4294967296

/-- JS `a << b` as the signed 32-bit integer it evaluates to. -/
def jsShl32Int (a b : Nat) : Int :=
  let u := (a <<< (b % 32)) % 4294967296
  if u < 2147483648 then (u : Int) else (u : Int) - 4294967296

/-- JS `~b` on a 32-bit operand, as an unsigned residue: `x & ~b`
clears exactly the bits of `b` for `x < 2^32`. -/
def jsNot32 (b : Nat) : Nat := 4294967295 ^^^ b

/-- JS array index assignment `a[i] = v`: in-place update, extending
the array with holes when `i` is past the end (holes read back as
`undefined`, which every bitwise use here coerces to 0). -/
def jsArraySet (l : List Nat) (i v : Nat) : List Nat :=
  if i < l.length then l.set i v
  else l ++ List.replicate (i - l.length) 0 ++ [v]

/-- JS array read `a[i]` in a bitwise context (`undefined` coerces
to 0). -/
def jsGetD (l : List Nat) (i : Nat) : Nat := l.getD i 0

/-- JS `name.startsWith('sp')` on a string modelled as a char list. -/
def startsWithSp : List Char → Bool
  | 's' :: 'p' :: _ => true
  | _ => false

/-! ## Board state -/

/-- One entry of `board.pins`, as built by the capability-response
handler (`{supportedModes, value, report}`); `mode`, `event`,
`analogChannel` and `state` are `undefined` (here `none`) until some
handler or command assigns them. -/
structure Pin where
  supportedModes : List Nat
  value : Nat
  report : Nat
  mode : Option Nat := none
  event : Option Nat := none
  analogChannel : Option Nat := none
  state : Option Nat := none
  deriving Repr, DecidableEq, Inhabited

/-- Firmware identity assembled by the `QUERY_FIRMWARE` handler. -/
structure Firmware where
  name : List Char
  versionMajor : Nat
  versionMinor : Nat
  deriving Repr, DecidableEq

/-- Events the modelled code emits (`board.emit(...)`). -/
inductive Ev where
  | reportversion
  | analogReadPin (pin value : Nat)
  | analogRead (pin value : Nat)
  | digitalReadPin (pin value : Nat)
  | digitalRead (pin value : Nat)
  | queryfirmware
  | capabilityQuery
  | pinState (pin : Nat)
  | analogMappingQuery
  | i2cReply (address register : Nat) (reply : List Nat)
  | stringData (bytes : List Nat)
  | pingRead (pin : Nat) (duration : Int)
  | stepperDone (deviceNum : Nat)
  | oledResponse
  | buggyResponse (buf : List Nat)
  | ready
  deriving Repr, DecidableEq

/-- Observation-log entry: a completed frame handed to a decode
handler by the transport `data` handler. -/
inductive Dispatch where
  | sysex (cmd : Nat) (frame : List Nat)
  | midi (response : Nat) (frame : List Nat)
  deriving Repr, DecidableEq

/-- The mutable fields of the `Board` object that the modelled code
touches, plus the observation logs `events`, `dispatched`, `writes`. -/
structure BoardState where
  pins : List Pin
  ports : List Nat
  analogPins : List Nat
  versionMajor : Option Nat := none
  versionMinor : Option Nat := none
  firmware : Option Firmware := none
  currentBuffer : List Nat := []
  versionReceived : Bool := false
  isReady : Bool := false
  resolutionADC : Option Int := none
  resolutionPWM : Option Int := none
  isClean : Bool := false
  pendingCapabilityCb : Bool := false
  pendingAnalogMappingCb : Bool := false
  events : List Ev := []
  dispatched : List Dispatch := []
  writes : List (List Nat) := []
  deriving Repr, DecidableEq

/-- `this.firmware && this.firmware.name && this.firmware.name.startsWith('sp')`. -/
def spFirmware (b : BoardState) : Bool :=
  match b.firmware with
  | some f => startsWithSp f.name
  | none => false

/-- `Board.prototype.init`: zero the ports, null every pin's mode,
send the sampling-interval frame `[F0 7A 64 00 F7]` and mark the
session clean.  (The resets of the module-level sensor caches are out
of the modelled scope.) -/
def initBoard (b : BoardState) : BoardState :=
  let b := { b with ports := List.replicate 16 0,
                    pins := b.pins.map (fun (p : Pin) => { p with mode := none }) }
  { b with writes := b.writes ++ [[0xF0, 0x7A, 0x64, 0x00, 0xF7]],
           isClean := true }

/-- `board.emit(e)` with the synchronously-run listeners that touch
board state: the constructor listeners on `reportversion` and
`queryfirmware`, and the one-shot listeners that `queryCapabilities` /
`queryAnalogMapping` register (modelled by the two pending flags). -/
def emitEv (b : BoardState) (e : Ev) : BoardState :=
  let b := { b with events := b.events ++ [e] }
  match e with
  | Ev.reportversion =>
      -- constructor listener: clearTimeout; versionReceived = true;
      -- if isReady (firmata reboot) re-run init()
      let b := { b with versionReceived := true }
      if b.isReady then initBoard b else b
  | Ev.queryfirmware =>
      -- constructor listener: if isReady return; (options.samplingInterval
      -- is undefined, so no setSamplingInterval); queryCapabilities(cb)
      if b.isReady then b
      else { b with pendingCapabilityCb := true,
                    writes := b.writes ++ [[START_SYSEX, CAPABILITY_QUERY, END_SYSEX]] }
  | Ev.capabilityQuery =>
      -- one-shot callback registered by queryCapabilities:
      -- queryAnalogMapping(ready)
      if b.pendingCapabilityCb then
        { b with pendingCapabilityCb := false,
                 pendingAnalogMappingCb := true,
                 writes := b.writes ++ [[START_SYSEX, ANALOG_MAPPING_QUERY, END_SYSEX]] }
      else b
  | Ev.analogMappingQuery =>
      -- one-shot callback `ready`: isReady = true; init(); emit('ready')
      if b.pendingAnalogMappingCb then
        let b := { b with pendingAnalogMappingCb := false, isReady := true }
        let b := initBoard b
        { b with events := b.events ++ [Ev.ready] }
      else b
  | _ => b

/-! ## `Board.encode` / `Board.decode` -/

/-- `Board.encode`: split every value into two 7-bit bytes, LSB
first. -/
def Board.encode (data : List Nat) : List Nat :=
  data.flatMap (fun d => [d &&& 0x7F, (d >>> 7) &&& 0x7F])

/-- The pairwise reassembly loop of `Board.decode`. -/
def decodePairs : List Nat → List Nat
  | lsb :: msb :: rest => (lsb ||| (msb <<< 7)) :: decodePairs rest
  | _ => []

/-- `Board.decode`: throws on an odd byte count, otherwise reassembles
each LSB-first 7-bit pair. -/
def Board.decode (data : List Nat) : Except String (List Nat) :=
  if data.length % 2 ≠ 0 then
    Except.error "Board.decode(data) called with odd number of data bytes"
  else
    Except.ok (decodePairs data)

/-! ## MIDI (3-byte message) decode handlers -/

/-- `MIDI_RESPONSE[REPORT_VERSION]`: version from bytes 1–2 of the
frame, then `emit('reportversion')`. -/
def reportVersionResponse (b : BoardState) : BoardState :=
  let b := { b with versionMajor := some (jsGetD b.currentBuffer 1),
                    versionMinor := some (jsGetD b.currentBuffer 2) }
  emitEv b Ev.reportversion

/-- `MIDI_RESPONSE[ANALOG_MESSAGE]`: pin from the low nibble of the
opcode, 14-bit value from the two payload bytes (LSB first); update
the mapped pin when it exists; raise per-pin and generic events. -/
def analogMessageResponse (b : BoardState) : BoardState :=
  let pin := jsGetD b.currentBuffer 0 &&& 0x0F
  let value := jsGetD b.currentBuffer 1 ||| (jsGetD b.currentBuffer 2 <<< 7)
  let b :=
    match b.analogPins[pin]? with
    | some idx =>
        match b.pins[idx]? with
        | some p => { b with pins := b.pins.set idx { p with value := value } }
        | none => b
    | none => b
  let b := emitEv b (Ev.analogReadPin pin value)
  emitEv b (Ev.analogRead pin value)

/-- One iteration of the `DIGITAL_MESSAGE` loop body, for loop index
`i`: pins outside the array or not in INPUT/PULLUP mode are left
untouched; otherwise the pin's bit is recomputed, the edge event set
(0→1 is released, 1→0 is pressed), the port bitmask bit updated and
the two digital events raised. -/
def digitalMessageStep (portValue port : Nat) (b : BoardState) (i : Nat) : BoardState :=
  let pinNumber := 8 * port + i
  let bit := 1 <<< i
  match b.pins[pinNumber]? with
  | some pin =>
      if pin.mode = some MODES_INPUT ∨ pin.mode = some 0x0B then
        let currentValue := (portValue >>> (i &&& 0x07)) &&& 0x01
        let pin := if pin.value = 0 ∧ currentValue = 1 then { pin with event := some KEY_RELEASED } else pin
        let pin := if pin.value = 1 ∧ currentValue = 0 then { pin with event := some KEY_PRESSED } else pin
        let pin := { pin with value := currentValue }
        let b := { b with pins := b.pins.set pinNumber pin }
        let b :=
          if pin.value ≠ 0 then
            { b with ports := jsArraySet b.ports port (jsGetD b.ports port ||| bit) }
          else
            { b with ports := jsArraySet b.ports port (jsGetD b.ports port &&& jsNot32 bit) }
        let b := emitEv b (Ev.digitalReadPin pinNumber pin.value)
        emitEv b (Ev.digitalRead pinNumber pin.value)
      else b
  | none => b

/-- `MIDI_RESPONSE[DIGITAL_MESSAGE]`: port from the low nibble, 14-bit
port value from the payload, then the loop over the 8 pins of the
port. -/
def digitalMessageResponse (b : BoardState) : BoardState :=
  let port := jsGetD b.currentBuffer 0 &&& 0x0F
  let portValue := jsGetD b.currentBuffer 1 ||| (jsGetD b.currentBuffer 2 <<< 7)
  (List.range 8).foldl (digitalMessageStep portValue port) b

/-- The fixed 3-byte-message dispatch table `MIDI_RESPONSE`. -/
def MIDI_RESPONSE (response : Nat) : Option (BoardState → BoardState) :=
  if response = REPORT_VERSION then some reportVersionResponse
  else if response = ANALOG_MESSAGE then some analogMessageResponse
  else if response = DIGITAL_MESSAGE then some digitalMessageResponse
  else none

/-! ## SysEx decode handlers -/

/-- The name bytes assembled by the `QUERY_FIRMWARE` handler: pairs at
indices 4, 6, … below `buf.length - 2`, each
`((buf[i] & 0x7F) | ((buf[i+1] & 0x7F) << 7)) & 0xFF`. -/
def firmwareNameBytes (buf : List Nat) : List Nat :=
  let length := buf.length - 2
  (List.range ((length - 3) / 2)).map (fun k =>
    ((jsGetD buf (4 + 2 * k) &&& 0x7F) ||| ((jsGetD buf (5 + 2 * k) &&& 0x7F) <<< 7)) &&& 0xFF)

/-- `SYSEX_RESPONSE[QUERY_FIRMWARE]`: decode the 7-bit-pair-encoded
name (ASCII bytes, so the UTF-8 decode is a plain `Char.ofNat` per
byte) and the version from bytes 2–3; `emit('queryfirmware')`. -/
def queryFirmwareResponse (b : BoardState) : Except String BoardState :=
  let fw : Firmware :=
    { name := (firmwareNameBytes b.currentBuffer).map Char.ofNat,
      versionMajor := jsGetD b.currentBuffer 2,
      versionMinor := jsGetD b.currentBuffer 3 }
  let b := { b with firmware := some fw }
  Except.ok (emitEv b Ev.queryfirmware)

/-- `supportedModes(capability)` of the capability handler: the modes
of `MODES_LIST` whose bit (JS `1 << mode`, shift count mod 32) is set
in the accumulated capability word. -/
def supportedModesOf (capability : Nat) : List Nat :=
  MODES_LIST.filter (fun m => capability &&& jsShl32 1 m ≠ 0)

/-- The capability-response loop, over the payload paired with its
successor byte (`buf[i]`, `buf[i+1]`): a 0x7F byte terminates a pin
(push `{supportedModes, value: 0, report: 1}` and reset); on the
first byte of a (mode, resolution) pair the capability word and the
ADC/PWM resolution registry are updated; `n` toggles between the two
bytes of a pair. -/
def capLoop : List (Nat × Nat) → Nat → Nat → BoardState → BoardState
  | [], _, _, b => b
  | (v, nx) :: rest, capability, n, b =>
      if v = 127 then
        capLoop rest 0 0
          { b with pins := b.pins ++ [{ supportedModes := supportedModesOf capability,
                                        value := 0, report := 1 }] }
      else if n = 0 then
        let resolution : Int := jsShl32Int 1 nx - 1
        let b :=
          if v = MODES_ANALOG ∧ b.resolutionADC = none then
            { b with resolutionADC := some resolution } else b
        let b :=
          if v = MODES_PWM ∧ b.resolutionPWM = none then
            { b with resolutionPWM := some resolution } else b
        capLoop rest (capability ||| jsShl32 1 v) (n ^^^ 1) b
      else
        capLoop rest capability (n ^^^ 1) b

/-- The (byte, next byte) pairs the capability loop walks: indices
`2 ≤ i < buf.length - 1` with their successor `buf[i+1]`. -/
def capPairs (buf : List Nat) : List (Nat × Nat) :=
  ((buf.drop 2).dropLast).zip (buf.drop 3)

/-- `SYSEX_RESPONSE[CAPABILITY_RESPONSE]`: reset ports and pins, then
(behind the always-true "only create pins if none exist" guard)
rebuild the pin array from the frame; `emit('capability-query')`. -/
def capabilityResponse (b : BoardState) : Except String BoardState :=
  let b := { b with ports := List.replicate 16 0, pins := [] }
  -- "Only create pins if none have been previously created on the
  -- instance." — the check follows the unconditional reset above, so
  -- it always holds.
  let b := if b.pins.length = 0 then capLoop (capPairs b.currentBuffer) 0 0 b else b
  Except.ok (emitEv b Ev.capabilityQuery)

/-- `SYSEX_RESPONSE[PIN_STATE_RESPONSE]`: set one pin's mode and its
up-to-21-bit state word; a pin index outside `board.pins` makes the
JS handler throw a `TypeError`. -/
def pinStateResponse (b : BoardState) : Except String BoardState :=
  let pin := jsGetD b.currentBuffer 2
  match b.pins[pin]? with
  | none => Except.error "TypeError: board.pins[pin] is undefined"
  | some p =>
      let st := jsGetD b.currentBuffer 4
      let st := if b.currentBuffer.length > 6 then st ||| (jsGetD b.currentBuffer 5 <<< 7) else st
      let st := if b.currentBuffer.length > 7 then st ||| (jsGetD b.currentBuffer 6 <<< 14) else st
      let p2 : Pin := { p with mode := some (jsGetD b.currentBuffer 3), state := some st }
      let b := { b with pins := b.pins.set pin p2 }
      Except.ok (emitEv b (Ev.pinState pin))

/-- The analog-mapping loop: payload byte `k` is pin `k`'s analog
channel (0x7F meaning not analog-capable, every other value pushed to
`analogPins`); a payload longer than the pin array makes the JS
handler throw a `TypeError`. -/
def mapLoop : List Nat → Nat → BoardState → Except String BoardState
  | [], _, b => Except.ok b
  | v :: rest, pinIdx, b =>
      match b.pins[pinIdx]? with
      | none => Except.error "TypeError: board.pins[pin] is undefined"
      | some p =>
          let b := { b with pins := b.pins.set pinIdx { p with analogChannel := some v } }
          let b := if v ≠ 127 then { b with analogPins := b.analogPins ++ [pinIdx] } else b
          mapLoop rest (pinIdx + 1) b

/-- `SYSEX_RESPONSE[ANALOG_MAPPING_RESPONSE]`: rebuild `analogPins`
and assign every covered pin its channel; `emit('analog-mapping-query')`. -/
def analogMappingResponse (b : BoardState) : Except String BoardState :=
  let b := { b with analogPins := [] }
  match mapLoop ((b.currentBuffer.drop 2).dropLast) 0 b with
  | Except.error e => Except.error e
  | Except.ok b => Except.ok (emitEv b Ev.analogMappingQuery)

/-- The reply words of the `I2C_REPLY` handler: 14-bit values from
byte pairs at indices 6, 8, … below `buf.length - 1`. -/
def i2cReplyWords (buf : List Nat) : List Nat :=
  (List.range ((buf.length - 6) / 2)).map (fun k =>
    jsGetD buf (6 + 2 * k) ||| (jsGetD buf (7 + 2 * k) <<< 7))

/-- `SYSEX_RESPONSE[I2C_REPLY]`: decode address, register and the
reply words and raise the keyed event.  (The module-level
`i2cInputData` cache and the ideaboard key parser live outside the
Board object and the modelled core.) -/
def i2cReplyResponse (b : BoardState) : Except String BoardState :=
  let address := (jsGetD b.currentBuffer 2 &&& 0x7F) ||| ((jsGetD b.currentBuffer 3 &&& 0x7F) <<< 7)
  let register := (jsGetD b.currentBuffer 4 &&& 0x7F) ||| ((jsGetD b.currentBuffer 5 &&& 0x7F) <<< 7)
  Except.ok (emitEv b (Ev.i2cReply address register (i2cReplyWords b.currentBuffer)))

/-- `SYSEX_RESPONSE[STRING_DATA]`: the payload decoded as text with
NUL bytes stripped (ASCII-level model of `Buffer.toString('utf8')`
plus the `\0` replace). -/
def stringDataResponse (b : BoardState) : Except String BoardState :=
  Except.ok (emitEv b (Ev.stringData (((b.currentBuffer.drop 2).dropLast).filter (· ≠ 0))))

/-- `SYSEX_RESPONSE[PING_READ]`: pin and four 14-bit duration limbs,
combined with JS 32-bit shifts (`<< 24` may alias/sign). -/
def pingReadResponse (b : BoardState) : Except String BoardState :=
  let pin := (jsGetD b.currentBuffer 2 &&& 0x7F) ||| ((jsGetD b.currentBuffer 3 &&& 0x7F) <<< 7)
  let d0 := (jsGetD b.currentBuffer 4 &&& 0x7F) ||| ((jsGetD b.currentBuffer 5 &&& 0x7F) <<< 7)
  let d1 := (jsGetD b.currentBuffer 6 &&& 0x7F) ||| ((jsGetD b.currentBuffer 7 &&& 0x7F) <<< 7)
  let d2 := (jsGetD b.currentBuffer 8 &&& 0x7F) ||| ((jsGetD b.currentBuffer 9 &&& 0x7F) <<< 7)
  let d3 := (jsGetD b.currentBuffer 10 &&& 0x7F) ||| ((jsGetD b.currentBuffer 11 &&& 0x7F) <<< 7)
  let duration := jsShl32Int d0 24 + jsShl32Int d1 16 + jsShl32Int d2 8 + (d3 : Int)
  Except.ok (emitEv b (Ev.pingRead pin duration))

/-- `SYSEX_RESPONSE[STEPPER]`. -/
def stepperResponse (b : BoardState) : Except String BoardState :=
  Except.ok (emitEv b (Ev.stepperDone (jsGetD b.currentBuffer 2)))

/-- `SYSEX_RESPONSE[MICRODUINO_OLED]`. -/
def oledResponseHandler (b : BoardState) : Except String BoardState :=
  Except.ok (emitEv b Ev.oledResponse)

/-- `SYSEX_RESPONSE[MICRODUINO_IBB]`. -/
def ibbResponseHandler (b : BoardState) : Except String BoardState :=
  Except.ok (emitEv b (Ev.buggyResponse b.currentBuffer))

/-- The built-in SysEx dispatch table `SYSEX_RESPONSE`, restricted to
the handlers whose effects live on the Board object (the IR-remote
and motion-sensor handlers only mutate module-level caches and timers
outside the specified core).  The parser is parametric in this
table — at runtime `Board.prototype.sysexResponse` extends it. -/
def coreSysex : Nat → Option (BoardState → Except String BoardState)
  | 0x79 => some queryFirmwareResponse
  | 0x6C => some capabilityResponse
  | 0x6E => some pinStateResponse
  | 0x6A => some analogMappingResponse
  | 0x77 => some i2cReplyResponse
  | 0x71 => some stringDataResponse
  | 0x75 => some pingReadResponse
  | 0x72 => some stepperResponse
  | 0x01 => some oledResponseHandler
  | 0x0C => some ibbResponseHandler
  | _ => none

/-! ## The transport `data` handler (frame parser / resynchronizer) -/

/-- The trailing 3-byte check of the `data` handler loop body: once
the buffer holds exactly 3 bytes and its first byte is not
`START_SYSEX`, re-derive the opcode, dispatch to `MIDI_RESPONSE` when
a handler exists and the handshake gate
(`versionReceived || first === REPORT_VERSION`) holds — marking the
handshake complete before the call — then clear the buffer regardless
of the dispatch outcome.  `first` is the value captured right after
the push. -/
def midiDispatch (b : BoardState) (first : Nat) : BoardState :=
  if b.currentBuffer.length = 3 ∧ first ≠ START_SYSEX then
    let response := if first < START_SYSEX then first &&& START_SYSEX else first
    match MIDI_RESPONSE response with
    | some handler =>
        if b.versionReceived ∨ first = REPORT_VERSION then
          let b2 := handler { b with versionReceived := true,
                                     dispatched := b.dispatched ++ [Dispatch.midi response b.currentBuffer] }
          { b2 with currentBuffer := [] }
        else { b with currentBuffer := [] }
    | none => { b with currentBuffer := [] }
  else b

/-- One iteration of the `data` handler loop: the per-byte step of the
frame parser.  `table` is the (mutable at runtime, hence parametric)
`SYSEX_RESPONSE` dispatch table.  A handler that throws crashes the
processing (`Except.error`), exactly as an exception escaping the
Node `data` listener would. -/
def processByte (table : Nat → Option (BoardState → Except String BoardState))
    (b : BoardState) (byte : Nat) : Except String BoardState :=
  -- empty-buffer guards: drop 0 bytes, and before the version
  -- handshake drop everything but REPORT_VERSION
  if b.currentBuffer.length = 0 ∧
      (byte = 0 ∨ (b.versionReceived = false ∧ byte ≠ REPORT_VERSION)) then
    Except.ok b
  else
    let buf := b.currentBuffer ++ [byte]
    let first := buf.headD 0
    let last := byte
    let afterChain : Except String BoardState :=
      if first = START_SYSEX ∧ last = END_SYSEX then
        -- a complete [START_SYSEX, ..., END_SYSEX] frame: invoke the
        -- handler for buf[1] only after REPORT_VERSION has been
        -- received; clear the buffer unconditionally
        match table (jsGetD buf 1) with
        | some handler =>
            if b.versionReceived then
              match handler { b with currentBuffer := buf,
                                     dispatched := b.dispatched ++ [Dispatch.sysex (jsGetD buf 1) buf] } with
              | Except.ok b2 => Except.ok { b2 with currentBuffer := [] }
              | Except.error e => Except.error e
            else Except.ok { b with currentBuffer := [] }
        | none => Except.ok { b with currentBuffer := [] }
      else if first = START_SYSEX then
        -- incomplete SysEx: a byte above 0x7F starts a new command
        if byte > 0x7F then Except.ok { b with currentBuffer := [byte] }
        else Except.ok { b with currentBuffer := buf }
      else
        -- first byte must look like a plausible short-message opcode
        let response := if first < START_SYSEX then first &&& START_SYSEX else first
        if response ≠ REPORT_VERSION ∧ response ≠ ANALOG_MESSAGE ∧ response ≠ DIGITAL_MESSAGE then
          Except.ok { b with currentBuffer := [] }
        else Except.ok { b with currentBuffer := buf }
    match afterChain with
    | Except.ok b1 => Except.ok (midiDispatch b1 first)
    | Except.error e => Except.error e

/-- One `data` event delivering a chunk: the loop over its bytes. -/
def processChunk (table : Nat → Option (BoardState → Except String BoardState))
    (b : BoardState) (chunk : List Nat) : Except String BoardState :=
  chunk.foldlM (processByte table) b

/-- A sequence of `data` events delivering consecutive chunks (a crash
in one event stops the process, so later chunks are not delivered). -/
def processChunks (table : Nat → Option (BoardState → Except String BoardState))
    (b : BoardState) (chunks : List (List Nat)) : Except String BoardState :=
  chunks.foldlM (processChunk table) b

/-! ## Outbound commands -/

/-- The `pin` local of `digitalWrite` / `digitalRead` after the
firmware-specific remap: firmware names starting with `'sp'` move
pins 14–21 up by 10. -/
def effectivePin (b : BoardState) (pin : Nat) : Nat :=
  if spFirmware b ∧ 14 ≤ pin ∧ pin ≤ 21 then pin + 10 else pin

/-- Outcome of a command method: the board object afterwards (side
effects on it persist even when the returned promise rejects), the
settled promise, and the byte sequences submitted to the transport. -/
structure CmdOut where
  board : BoardState
  result : Except String Unit
  writes : List (List Nat)
  deriving Repr

/-- `Board.prototype.pinMode`: write `[PIN_MODE, pin, mode]`, then set
the pin's mode (a `TypeError` for an out-of-range pin rejects the
promise after the bytes were already submitted).  There is no
validation against `supportedModes`. -/
def pinMode (b : BoardState) (pin mode : Nat) : CmdOut :=
  let w := [[PIN_MODE, pin, mode]]
  match b.pins[pin]? with
  | some p =>
      { board := { b with pins := b.pins.set pin { p with mode := some mode } },
        result := Except.ok (), writes := w }
  | none => { board := b, result := Except.error "TypeError: board.pins[pin] is undefined",
              writes := w }

/-- `Board.prototype.digitalWrite`: remap the pin for `'sp'` firmware,
mutate the port bitmask bit before any validity check, then — only
for an in-range pin — chain an implied `pinMode(OUTPUT)` when needed
and the digital value write when the stored value differs or the mode
was just set; an out-of-range pin rejects with
`'Invalid digital write'` after the port mutation, sending nothing. -/
def digitalWrite (b : BoardState) (pin0 value : Nat) : CmdOut :=
  let pin := effectivePin b pin0
  let port := pin >>> 3
  let bit := 1 <<< (pin &&& 0x07)
  let b :=
    if value ≠ 0 then
      { b with ports := jsArraySet b.ports port (jsGetD b.ports port ||| bit) }
    else
      { b with ports := jsArraySet b.ports port (jsGetD b.ports port &&& jsNot32 bit) }
  match b.pins[pin]? with
  | some p =>
      let setmode := p.mode ≠ some MODES_OUTPUT
      let valueDiff := p.value ≠ value
      let r1 := if setmode then pinMode b pin MODES_OUTPUT
                else { board := b, result := Except.ok (), writes := [] }
      match r1.result with
      | Except.error e => { board := r1.board, result := Except.error e, writes := r1.writes }
      | Except.ok _ =>
          let b1 := r1.board
          if valueDiff ∨ setmode then
            let portsNow := jsGetD b1.ports port
            let msg := [DIGITAL_MESSAGE ||| port, portsNow &&& 0x7F, (portsNow >>> 7) &&& 0x7F]
            match b1.pins[pin]? with
            | some p1 =>
                { board := { b1 with pins := b1.pins.set pin { p1 with value := value } },
                  result := Except.ok (), writes := r1.writes ++ [msg] }
            | none => { board := b1,
                        result := Except.error "TypeError: board.pins[pin] is undefined",
                        writes := r1.writes ++ [msg] }
          else { board := b1, result := Except.ok (), writes := r1.writes }
  | none => { board := b, result := Except.error "Invalid digital write", writes := [] }

/-- Outcome of `Board.prototype.digitalRead`: an immediately resolved
cached value, a pending promise awaiting the `digital-read-N` event
(or its 1 s timeout), or the `'Invalid digital read'` rejection. -/
inductive ReadResult where
  | resolved (value : Nat)
  | awaiting
  | invalid
  deriving Repr, DecidableEq

/-- `Board.prototype.digitalRead`: remap the pin for `'sp'` firmware;
for an in-range pin not in INPUT mode, set up the one-shot waiter,
issue `pinMode(INPUT)` and the report-digital bytes (one extra port
for `'sp'` firmware) and stay pending; a pin already in INPUT mode
resolves from the cached value with no wire traffic. -/
def digitalRead (b : BoardState) (pin0 : Nat) : ReadResult × BoardState × List (List Nat) :=
  let pin := effectivePin b pin0
  match b.pins[pin]? with
  | some p =>
      if p.mode ≠ some MODES_INPUT then
        let r1 := pinMode b pin MODES_INPUT
        let report :=
          if spFirmware b then [0xD0, 0x01, 0xD1, 0x01, 0xD2, 0x01, 0xD3, 0x01]
          else [0xD0, 0x01, 0xD1, 0x01, 0xD2, 0x01]
        (ReadResult.awaiting, r1.board, r1.writes ++ [report])
      else (ReadResult.resolved p.value, b, [])
  | none => (ReadResult.invalid, b, [])

/-- `Board.prototype.sysexResponse`: registering a handler for a
command byte that already has one throws immediately; otherwise the
installed table entry hands the user handler the raw payload (the
frame minus its first two bytes and the trailing terminator). -/
def sysexResponse (table : Nat → Option (BoardState → Except String BoardState))
    (commandByte : Nat) (handler : List Nat → BoardState → BoardState) :
    Except String (Nat → Option (BoardState → Except String BoardState)) :=
  match table commandByte with
  | some _ => Except.error (toString commandByte ++ " is not an available SYSEX_RESPONSE byte")
  | none =>
      Except.ok (fun cb =>
        if cb = commandByte then
          some (fun board => Except.ok (handler ((board.currentBuffer.drop 2).dropLast) board))
        else table cb)

/-! ## Helper lemmas -/

/-- Recombining a low 7-bit part with a left-shifted high part is
plain addition. -/
theorem lor_low_high (a b : Nat) (h : a < 128) : a ||| (b <<< 7) = a + b * 128 := by
  apply Nat.eq_of_testBit_eq
  intro i
  rcases Nat.lt_or_ge i 7 with hi | hi
  · have hr : (a + b * 128).testBit i = a.testBit i := by
      have hmod : (a + b * 128) % 128 = a := by
        rw [Nat.add_mul_mod_self_right, Nat.mod_eq_of_lt h]
      have := Nat.testBit_mod_two_pow (a + b * 128) 7 i
      rw [show (2:Nat) ^ 7 = 128 from rfl, hmod] at this
      simp [hi] at this
      exact this.symm
    rw [hr, Nat.testBit_lor, Nat.testBit_shiftLeft]
    simp [Nat.not_le.mpr hi]
  · have hdiv : (a + b * 128) / 128 = b := by
      rw [Nat.add_mul_div_right _ _ (by norm_num : (0:Nat) < 128), Nat.div_eq_of_lt h]
      omega
    have hr : (a + b * 128).testBit i = b.testBit (i - 7) := by
      have h2 := Nat.testBit_shiftRight (i := 7) (j := i - 7) (a + b * 128)
      rw [Nat.shiftRight_eq_div_pow, show (2:Nat) ^ 7 = 128 from rfl, hdiv,
        show 7 + (i - 7) = i from by omega] at h2
      exact h2.symm
    rw [hr, Nat.testBit_lor, Nat.testBit_shiftLeft]
    have ha : a.testBit i = false :=
      Nat.testBit_eq_false_of_lt
        (lt_of_lt_of_le h (Nat.pow_le_pow_right (by norm_num : 1 ≤ 2) hi))
    simp [ha, hi]

/-- `n &&& 0x7F` is `n % 128`. -/
theorem and_7f_eq_mod (n : Nat) : n &&& 0x7F = n % 128 := by
  have := Nat.and_pow_two_sub_one_eq_mod n 7
  norm_num at this
  exact this

/-! ## C3: encode/decode round trip on 14-bit values -/

/-- C3: for every `v` in `[0, 16383]`, `Board.encode [v]` is the two
LSB-first 7-bit bytes `[v &&& 0x7F, (v >>> 7) &&& 0x7F]`, and
`Board.decode` on those two bytes returns `[v]`: decode is a left
inverse of encode on single 14-bit values. -/
theorem encode_decode_roundtrip (v : Nat) (h : v ≤ 16383) :
    Board.encode [v] = [v &&& 0x7F, (v >>> 7) &&& 0x7F] ∧
    Board.decode [v &&& 0x7F, (v >>> 7) &&& 0x7F] = Except.ok [v] := by
  constructor
  · rfl
  · show Board.decode [v &&& 0x7F, (v >>> 7) &&& 0x7F] = Except.ok [v]
    rw [Board.decode]
    simp only [List.length_cons, List.length_nil]
    norm_num
    show decodePairs [v &&& 0x7F, (v >>> 7) &&& 0x7F] = [v]
    have hd : decodePairs [v &&& 0x7F, (v >>> 7) &&& 0x7F] =
        [(v &&& 0x7F) ||| (((v >>> 7) &&& 0x7F) <<< 7)] := rfl
    rw [hd]
    congr 1
    rw [and_7f_eq_mod, Nat.shiftRight_eq_div_pow, and_7f_eq_mod]
    have hq : v / 2 ^ 7 % 128 = v / 2 ^ 7 := by
      apply Nat.mod_eq_of_lt
      omega
    rw [hq, lor_low_high _ _ (Nat.mod_lt _ (by norm_num))]
    norm_num
    omega

/-- Witness for `encode_decode_roundtrip` at `v = 5000`. -/
theorem encode_decode_roundtrip_witness :
    Board.encode [5000] = [5000 &&& 0x7F, (5000 >>> 7) &&& 0x7F] ∧
    Board.decode [5000 &&& 0x7F, (5000 >>> 7) &&& 0x7F] = Except.ok [5000] :=
  encode_decode_roundtrip 5000 (by norm_num)

/-! ## C1: chunk-boundary independence of the frame parser -/

/-- C1: the `data` handler processes its chunk strictly one byte at a
time against state held on the board (`currentBuffer`,
`versionReceived`, board fields, observation logs), so delivering a
byte sequence in any sequence of consecutive chunks produces exactly
the same dispatched decoded messages and the same final parser state
as delivering it as one contiguous chunk (a crash in a handler halts
processing identically in both cases). -/
theorem chunk_boundary_independence
    (table : Nat → Option (BoardState → Except String BoardState))
    (b : BoardState) (chunks : List (List Nat)) :
    processChunks table b chunks = processChunk table b chunks.flatten := by
  induction chunks generalizing b with
  | nil => rfl
  | cons c cs ih =>
      rw [processChunks, List.foldlM_cons,
        show (c :: cs).flatten = c ++ cs.flatten from rfl]
      simp only [processChunk]
      rw [List.foldlM_append]
      cases hc : List.foldlM (processByte table) b c with
      | ok b1 =>
          have h1 : processChunk table b c = Except.ok b1 := hc
          simp only [bind, Except.bind, hc, h1]
          exact ih b1
      | error e =>
          have h1 : processChunk table b c = Except.error e := hc
          simp only [bind, Except.bind, hc, h1]

/-! ## C2: SysEx completion — gated dispatch, unconditional clear -/

/-- The state a SysEx handler is invoked on: the completed frame in
`currentBuffer`, with the dispatch recorded. -/
def sysexIn (b : BoardState) (buf : List Nat) : BoardState :=
  { b with currentBuffer := buf,
           dispatched := b.dispatched ++ [Dispatch.sysex (jsGetD buf 1) buf] }

/-- C2: when the candidate buffer starts with `START_SYSEX` and the
just-appended byte is `END_SYSEX`, the handler looked up by the
buffer's second byte is invoked (on the completed frame) iff it
exists in the table and `versionReceived` is already true — so no
SysEx handler ever runs before the version handshake — and in every
other case the step only clears the buffer; the cleared buffer is
visible in both outcomes. -/
theorem sysex_dispatch_iff
    (table : Nat → Option (BoardState → Except String BoardState))
    (b : BoardState) (byte : Nat) (l : List Nat)
    (hcb : b.currentBuffer = START_SYSEX :: l)
    (h3 : byte = END_SYSEX) :
    (∀ handler, table (jsGetD (b.currentBuffer ++ [byte]) 1) = some handler →
      b.versionReceived = true →
      processByte table b byte =
        Except.map (fun b2 => { b2 with currentBuffer := [] })
          (handler (sysexIn b (b.currentBuffer ++ [byte]))))
    ∧ ((table (jsGetD (b.currentBuffer ++ [byte]) 1) = none ∨ b.versionReceived = false) →
      processByte table b byte = Except.ok { b with currentBuffer := [] }) := by
  subst h3
  constructor
  · intro handler hh hv
    cases hres : handler (sysexIn b (b.currentBuffer ++ [END_SYSEX])) with
    | ok b2 =>
        simp only [sysexIn, hv, hcb, List.cons_append] at hres hh
        simp [processByte, hcb, hh, hv, hres, midiDispatch, Except.map]
    | error e =>
        simp only [sysexIn, hv, hcb, List.cons_append] at hres hh
        simp [processByte, hcb, hh, hv, hres, Except.map]
  · intro hcase
    rcases hcase with hnone | hnv
    · simp only [hcb, List.cons_append] at hnone
      simp [processByte, hcb, hnone, midiDispatch]
    · cases htab : table (jsGetD (b.currentBuffer ++ [END_SYSEX]) 1) with
      | none =>
          simp only [hcb, List.cons_append] at htab
          simp [processByte, hcb, htab, midiDispatch]
      | some handler =>
          simp only [hcb, List.cons_append] at htab
          simp [processByte, hcb, htab, hnv, midiDispatch]

/-- A board mid-SysEx (buffer `F0 71 00`) with the handshake done. -/
def sysexMidBoard : BoardState :=
  { pins := [], ports := List.replicate 16 0, analogPins := [],
    currentBuffer := [0xF0, 0x71, 0x00], versionReceived := true }

/-- The same board before the handshake. -/
def sysexPreBoard : BoardState :=
  { sysexMidBoard with versionReceived := false }

/-- Witness for `sysex_dispatch_iff`: on `sysexMidBoard`, the
`STRING_DATA` handler is invoked on the completed frame; on
`sysexPreBoard`, the same closing byte only clears the buffer. -/
theorem sysex_dispatch_iff_witness :
    processByte coreSysex sysexMidBoard END_SYSEX =
      Except.map (fun b2 => { b2 with currentBuffer := [] })
        (stringDataResponse (sysexIn sysexMidBoard (sysexMidBoard.currentBuffer ++ [END_SYSEX]))) ∧
    processByte coreSysex sysexPreBoard END_SYSEX =
      Except.ok { sysexPreBoard with currentBuffer := [] } :=
  ⟨(sysex_dispatch_iff coreSysex sysexMidBoard END_SYSEX [0x71, 0x00] rfl rfl).1
      stringDataResponse rfl rfl,
   (sysex_dispatch_iff coreSysex sysexPreBoard END_SYSEX [0x71, 0x00] rfl rfl).2
      (Or.inr rfl)⟩

/-! ## C8: duplicate SysEx registration is an immediate error -/

/-- C8: `sysexResponse` throws at registration time for any command
byte that already has a handler (built-in or user-registered), leaving
the table unchanged; for a free byte it installs a handler that hands
the user function the raw payload — the frame minus its leading two
bytes and trailing terminator — and leaves every other entry alone. -/
theorem sysexResponse_registration
    (table : Nat → Option (BoardState → Except String BoardState))
    (commandByte : Nat) (handler : List Nat → BoardState → BoardState) :
    ((∃ h0, table commandByte = some h0) →
      sysexResponse table commandByte handler =
        Except.error (toString commandByte ++ " is not an available SYSEX_RESPONSE byte"))
    ∧ (table commandByte = none →
      ∃ t', sysexResponse table commandByte handler = Except.ok t' ∧
        t' commandByte =
          some (fun board => Except.ok (handler ((board.currentBuffer.drop 2).dropLast) board)) ∧
        ∀ c, c ≠ commandByte → t' c = table c) := by
  constructor
  · rintro ⟨h0, hh⟩
    simp [sysexResponse, hh]
  · intro hn
    refine ⟨fun cb => if cb = commandByte then
        some (fun board => Except.ok (handler ((board.currentBuffer.drop 2).dropLast) board))
      else table cb, ?_, ?_, ?_⟩
    · simp [sysexResponse, hn]
    · simp
    · intro c hc
      simp [hc]

/-- A sample user SysEx handler. -/
def userHandlerSample : List Nat → BoardState → BoardState :=
  fun payload bd => { bd with events := bd.events ++ [Ev.stringData payload] }

/-- Witness for `sysexResponse_registration`: registering on the
taken byte `QUERY_FIRMWARE` throws; registering on the free byte
`0x05` installs the raw-payload wrapper. -/
theorem sysexResponse_registration_witness :
    (sysexResponse coreSysex QUERY_FIRMWARE userHandlerSample =
      Except.error (toString QUERY_FIRMWARE ++ " is not an available SYSEX_RESPONSE byte")) ∧
    ∃ t', sysexResponse coreSysex 0x05 userHandlerSample = Except.ok t' ∧
      t' 0x05 = some (fun board =>
        Except.ok (userHandlerSample ((board.currentBuffer.drop 2).dropLast) board)) ∧
      ∀ c, c ≠ 0x05 → t' c = coreSysex c :=
  ⟨(sysexResponse_registration coreSysex QUERY_FIRMWARE userHandlerSample).1
      ⟨queryFirmwareResponse, rfl⟩,
   (sysexResponse_registration coreSysex 0x05 userHandlerSample).2 rfl⟩

/-! ## C4: mode changes are NOT validated against supportedModes -/

/-- A board whose single pin supports only INPUT mode. -/
def inputOnlyBoard : BoardState :=
  { pins := [{ supportedModes := [ MODES_INPUT], value := 0, report := 1 }],
    ports := List.replicate 16 0, analogPins := [] }

/-- Counterexample to C4: on a pin that supports only INPUT,
`pinMode(0, OUTPUT)` does not fail with an "unsupported mode" error —
it sends the mode-set bytes and succeeds, leaving the pin in a mode
outside its supported-mode set. -/
theorem pinMode_unsupported_counterexample :
    MODES_OUTPUT ∉ ((inputOnlyBoard.pins[0]?).map Pin.supportedModes).getD [] ∧
    (pinMode inputOnlyBoard 0 MODES_OUTPUT).writes = [[PIN_MODE, 0, MODES_OUTPUT]] ∧
    (pinMode inputOnlyBoard 0 MODES_OUTPUT).result = Except.ok () ∧
    ((pinMode inputOnlyBoard 0 MODES_OUTPUT).board.pins[0]?).map Pin.mode =
      some (some MODES_OUTPUT) := by
  exact ⟨by decide, by rfl, by rfl, by rfl⟩

/-- C4 amended: `pinMode` performs no supported-mode validation at
all — for every in-range pin and every mode, supported or not, it
sends exactly `[PIN_MODE, pin, mode]`, succeeds, and sets the pin's
mode to the requested value (other pins untouched); there is no
"unsupported mode" error path, and the mode-setting writes implied by
digital/analog writes go through this same unchecked `pinMode`. -/
theorem pinMode_no_mode_validation (b : BoardState) (pin mode : Nat)
    (h : pin < b.pins.length) :
    (pinMode b pin mode).writes = [[PIN_MODE, pin, mode]] ∧
    (pinMode b pin mode).result = Except.ok () ∧
    ((pinMode b pin mode).board.pins[pin]?).map Pin.mode = some (some mode) ∧
    ∀ j, j ≠ pin → (pinMode b pin mode).board.pins[j]? = b.pins[j]? := by
  cases hp : b.pins[pin]? with
  | none =>
      rw [List.getElem?_eq_none_iff] at hp
      omega
  | some p =>
      refine ⟨by simp [pinMode, hp], by simp [pinMode, hp], ?_, ?_⟩
      · simp [pinMode, hp, List.getElem?_set_self h]
      · intro j hj
        simp [pinMode, hp, List.getElem?_set_ne (Ne.symm hj)]

/-- Witness for `pinMode_no_mode_validation` on `inputOnlyBoard` with
the unsupported mode PWM. -/
theorem pinMode_no_mode_validation_witness :
    (pinMode inputOnlyBoard 0 MODES_PWM).writes = [[PIN_MODE, 0, MODES_PWM]] ∧
    (pinMode inputOnlyBoard 0 MODES_PWM).result = Except.ok () ∧
    ((pinMode inputOnlyBoard 0 MODES_PWM).board.pins[0]?).map Pin.mode = some (some MODES_PWM) ∧
    ∀ j, j ≠ 0 → (pinMode inputOnlyBoard 0 MODES_PWM).board.pins[j]? = inputOnlyBoard.pins[j]? :=
  pinMode_no_mode_validation inputOnlyBoard 0 MODES_PWM (by decide)

/-! ## C7: a cached digital write sends nothing at all -/

/-- A board whose single pin is in OUTPUT mode with stored value 1. -/
def outputHighBoard : BoardState :=
  { pins := [{ supportedModes := [ MODES_INPUT, MODES_OUTPUT], value := 1, report := 1,
               mode := some MODES_OUTPUT }],
    ports := List.replicate 16 0, analogPins := [] }

/-- Counterexample to C7: writing the stored value to a pin already
in OUTPUT mode sends no message at all — in particular it does not
send "only the digital value-write message", because no value-write
reaches the transport either. -/
theorem digitalWrite_cached_counterexample :
    ((outputHighBoard.pins[0]?).map Pin.mode = some (some MODES_OUTPUT) ∧
      (outputHighBoard.pins[0]?).map Pin.value = some 1) ∧
    (digitalWrite outputHighBoard 0 1).writes = [] ∧
    ¬ ∃ msg, (digitalWrite outputHighBoard 0 1).writes = [ msg] := by
  refine ⟨⟨by rfl, by rfl⟩, by rfl, ?_⟩
  rintro ⟨msg, hmsg⟩
  rw [show (digitalWrite outputHighBoard 0 1).writes = [] from rfl] at hmsg
  exact List.noConfusion hmsg

/-- C7 amended: a digital write to a pin already in OUTPUT mode whose
stored value equals the written value never re-sends the mode-set
byte sequence — and in fact sends nothing at all: the operation
short-circuits with no wire traffic and resolves successfully,
leaving the pin array untouched. -/
theorem digitalWrite_cached_no_traffic (b : BoardState) (pin0 value : Nat) (p : Pin)
    (hp : b.pins[effectivePin b pin0]? = some p)
    (hmode : p.mode = some MODES_OUTPUT)
    (hval : p.value = value) :
    (digitalWrite b pin0 value).writes = [] ∧
    (digitalWrite b pin0 value).result = Except.ok () ∧
    (digitalWrite b pin0 value).board.pins = b.pins := by
  by_cases hvz : value = 0
  · simp [digitalWrite, hp, hmode, hval, hvz]
  · simp [digitalWrite, hp, hmode, hval, hvz]

/-- Witness for `digitalWrite_cached_no_traffic` on `outputHighBoard`. -/
theorem digitalWrite_cached_no_traffic_witness :
    (digitalWrite outputHighBoard 0 1).writes = [] ∧
    (digitalWrite outputHighBoard 0 1).result = Except.ok () ∧
    (digitalWrite outputHighBoard 0 1).board.pins = outputHighBoard.pins :=
  digitalWrite_cached_no_traffic outputHighBoard 0 1
    { supportedModes := [ MODES_INPUT, MODES_OUTPUT], value := 1, report := 1,
      mode := some MODES_OUTPUT }
    (by rfl) (by rfl) (by rfl)

/-! ## C10: a rejected digital write still flips the port bit -/

/-- `jsArraySet` followed by a read at the written index yields the
written value. -/
theorem jsGetD_jsArraySet_self (l : List Nat) (i v : Nat) :
    jsGetD (jsArraySet l i v) i = v := by
  unfold jsGetD jsArraySet
  split
  · next h =>
      simp [List.getD, List.getElem?_set_self h]
  · next h =>
      rw [List.getD, List.get?_eq_getElem?, List.append_assoc,
        List.getElem?_append_right (by omega)]
      rw [List.getElem?_append_right (by simp), List.length_replicate]
      simp

/-- Bit `k` of `1 <<< k`. -/
theorem testBit_shl_one_self (k : Nat) : (1 <<< k).testBit k = true := by
  rw [Nat.shiftLeft_eq, one_mul]
  exact Nat.testBit_two_pow_self

/-- Bit `k` of the JS complement of `1 << k` is clear (for `k` inside
the 32-bit word). -/
theorem testBit_jsNot32_shl_self (k : Nat) (hk : k < 32) :
    (jsNot32 (1 <<< k)).testBit k = false := by
  rw [jsNot32, Nat.testBit_xor, Nat.shiftLeft_eq, one_mul,
    show (4294967295 : Nat) = 2 ^ 32 - 1 from rfl, Nat.testBit_two_pow_sub_one,
    Nat.testBit_two_pow_self]
  simp [hk]

/-- `x |= bit` sets the bit. -/
theorem testBit_set_bit (x k : Nat) : (x ||| 1 <<< k).testBit k = true := by
  rw [Nat.testBit_or, testBit_shl_one_self, Bool.or_true]

/-- `x &= ~bit` clears the bit. -/
theorem testBit_clear_bit (x k : Nat) (hk : k < 32) :
    (x &&& jsNot32 (1 <<< k)).testBit k = false := by
  rw [Nat.testBit_and, testBit_jsNot32_shl_self k hk, Bool.and_false]

/-- C10: for a pin index out of range (`pins` shorter than the pin the
code addresses — `pin` being `digitalWrite`'s local after the
firmware remap), the write rejects with `'Invalid digital write'` and
sends nothing, but bit `pin & 7` of `ports[pin >> 3]` has already
been set or cleared according to the requested value, so the rejected
write is not atomic with respect to the port bitmask (the pin array
itself is untouched). -/
theorem digitalWrite_invalid_mutates_port (b : BoardState) (pin0 value : Nat)
    (h : b.pins.length ≤ effectivePin b pin0) :
    (digitalWrite b pin0 value).result = Except.error "Invalid digital write" ∧
    (digitalWrite b pin0 value).writes = [] ∧
    (jsGetD (digitalWrite b pin0 value).board.ports (effectivePin b pin0 >>> 3)).testBit
        (effectivePin b pin0 &&& 0x07) = decide (value ≠ 0) ∧
    (digitalWrite b pin0 value).board.pins = b.pins := by
  have hp : b.pins[effectivePin b pin0]? = none := by
    rw [List.getElem?_eq_none_iff]
    exact h
  have hbit : effectivePin b pin0 &&& 0x07 < 32 := by
    have := Nat.and_pow_two_sub_one_eq_mod (effectivePin b pin0) 3
    norm_num at this
    omega
  by_cases hvz : value = 0
  · subst hvz
    refine ⟨by simp [digitalWrite, hp], by simp [digitalWrite, hp], ?_, by simp [digitalWrite, hp]⟩
    simp [digitalWrite, hp, jsGetD_jsArraySet_self, testBit_jsNot32_shl_self, hbit]
  · refine ⟨by simp [digitalWrite, hp, hvz], by simp [digitalWrite, hp, hvz], ?_,
      by simp [digitalWrite, hp, hvz]⟩
    simp [digitalWrite, hp, hvz, jsGetD_jsArraySet_self, testBit_shl_one_self]

/-- A board with no pins discovered yet. -/
def emptyPinsBoard : BoardState :=
  { pins := [], ports := List.replicate 16 0, analogPins := [] }

/-- Witness for `digitalWrite_invalid_mutates_port`: writing HIGH to
pin 5 of a pinless board rejects but flips bit 5 of port 0. -/
theorem digitalWrite_invalid_mutates_port_witness :
    (digitalWrite emptyPinsBoard 5 1).result = Except.error "Invalid digital write" ∧
    (digitalWrite emptyPinsBoard 5 1).writes = [] ∧
    (jsGetD (digitalWrite emptyPinsBoard 5 1).board.ports (effectivePin emptyPinsBoard 5 >>> 3)).testBit
        (effectivePin emptyPinsBoard 5 &&& 0x07) = decide ((1:Nat) ≠ 0) ∧
    (digitalWrite emptyPinsBoard 5 1).board.pins = emptyPinsBoard.pins :=
  digitalWrite_invalid_mutates_port emptyPinsBoard 5 1 (by decide)

/-! ## C9: digital read/write versus the reported firmware name -/

/-- A board differing from `b` only in its firmware identity. -/
def withFirmwareName (b : BoardState) (n : List Char) (vM vm : Nat) : BoardState :=
  { b with firmware := some { name := n, versionMajor := vM, versionMinor := vm } }

/-- `pinMode` never reads the firmware identity: renaming the
firmware commutes with it. -/
theorem pinMode_rename (b : BoardState) (n : List Char) (vM vm pin mode : Nat) :
    pinMode (withFirmwareName b n vM vm) pin mode =
      { board := withFirmwareName (pinMode b pin mode).board n vM vm,
        result := (pinMode b pin mode).result,
        writes := (pinMode b pin mode).writes } := by
  cases hp : b.pins[pin]? with
  | none => simp [pinMode, withFirmwareName, hp]
  | some p => simp [pinMode, withFirmwareName, hp]

/-- `digitalWrite` reads the firmware identity only through the
`'sp'`-prefix test: renaming to a name with the same test result
commutes with it. -/
theorem digitalWrite_rename (b : BoardState) (n : List Char) (vM vm pin0 value : Nat)
    (hsp : startsWithSp n = spFirmware b) :
    digitalWrite (withFirmwareName b n vM vm) pin0 value =
      { board := withFirmwareName (digitalWrite b pin0 value).board n vM vm,
        result := (digitalWrite b pin0 value).result,
        writes := (digitalWrite b pin0 value).writes } := by
  have heq : effectivePin (withFirmwareName b n vM vm) pin0 = effectivePin b pin0 := by
    simp [effectivePin, spFirmware, withFirmwareName, hsp]
  unfold digitalWrite
  rw [heq]
  cases hp : b.pins[effectivePin b pin0]? with
  | none =>
      by_cases hvz : value = 0 <;> simp [withFirmwareName, hp, hvz]
  | some p =>
      have hlt : effectivePin b pin0 < b.pins.length := by
        rw [← List.getElem?_eq_some_iff.mp hp |>.choose_spec] at hp
        exact (List.getElem?_eq_some_iff.mp hp).choose
      by_cases hvz : value = 0
      · subst hvz
        by_cases hsm : p.mode = some MODES_OUTPUT <;> by_cases hvd : p.value = 0 <;>
          simp [pinMode, withFirmwareName, hp, hsm, hvd, List.getElem?_set_self hlt]
      · by_cases hsm : p.mode = some MODES_OUTPUT <;> by_cases hvd : p.value = value <;>
          simp [pinMode, withFirmwareName, hp, hvz, hsm, hvd, List.getElem?_set_self hlt]

/-- `digitalRead` likewise commutes with a firmware rename that
preserves the `'sp'`-prefix test. -/
theorem digitalRead_rename (b : BoardState) (n : List Char) (vM vm pin0 : Nat)
    (hsp : startsWithSp n = spFirmware b) :
    digitalRead (withFirmwareName b n vM vm) pin0 =
      ((digitalRead b pin0).1, withFirmwareName (digitalRead b pin0).2.1 n vM vm,
        (digitalRead b pin0).2.2) := by
  have heq : effectivePin (withFirmwareName b n vM vm) pin0 = effectivePin b pin0 := by
    simp [effectivePin, spFirmware, withFirmwareName, hsp]
  unfold digitalRead
  rw [heq]
  cases hp : b.pins[effectivePin b pin0]? with
  | none => simp [withFirmwareName, hp]
  | some p =>
      by_cases hm : p.mode = some MODES_INPUT <;>
        simp [pinMode, withFirmwareName, spFirmware, hp, hm, hsp]

/-- A 32-pin board, every pin in OUTPUT mode with value 0. -/
def manyPinsBoard : BoardState :=
  { pins := List.replicate 32
      { supportedModes := [ MODES_INPUT, MODES_OUTPUT], value := 0, report := 1,
        mode := some MODES_OUTPUT },
    ports := List.replicate 16 0, analogPins := [] }

/-- Counterexample to C9: two runs that differ only in the firmware
name (`"abc"` vs `"sp1"`) address different pins for pin argument 14
and submit different byte sequences for both `digitalWrite` and
`digitalRead` — the `'sp'` name prefix remaps pins 14–21 and adds a
report-digital port. -/
theorem firmware_name_counterexample :
    effectivePin (withFirmwareName manyPinsBoard ['a', 'b', 'c'] 1 0) 14 ≠
      effectivePin (withFirmwareName manyPinsBoard ['s', 'p', '1'] 1 0) 14 ∧
    (digitalWrite (withFirmwareName manyPinsBoard ['a', 'b', 'c'] 1 0) 14 1).writes ≠
      (digitalWrite (withFirmwareName manyPinsBoard ['s', 'p', '1'] 1 0) 14 1).writes ∧
    (digitalRead (withFirmwareName manyPinsBoard ['a', 'b', 'c'] 1 0) 14).2.2 ≠
      (digitalRead (withFirmwareName manyPinsBoard ['s', 'p', '1'] 1 0) 14).2.2 :=
  ⟨by decide, by decide, by decide⟩

/-- C9 amended: the bytes `digitalWrite` / `digitalRead` submit, the
promise outcome, and the pin they address are independent of the
firmware name **within each class of the `'sp'`-prefix test**: two
runs whose firmware names agree on `startsWith('sp')` behave
identically; names in different classes differ (pins 14–21 are
remapped and an extra report-digital port is sent). -/
theorem digital_rw_firmware_name_independent (b : BoardState) (n1 n2 : List Char)
    (vM vm pin value : Nat) (h : startsWithSp n1 = startsWithSp n2) :
    effectivePin (withFirmwareName b n1 vM vm) pin =
      effectivePin (withFirmwareName b n2 vM vm) pin ∧
    (digitalWrite (withFirmwareName b n1 vM vm) pin value).writes =
      (digitalWrite (withFirmwareName b n2 vM vm) pin value).writes ∧
    (digitalWrite (withFirmwareName b n1 vM vm) pin value).result =
      (digitalWrite (withFirmwareName b n2 vM vm) pin value).result ∧
    (digitalRead (withFirmwareName b n1 vM vm) pin).1 =
      (digitalRead (withFirmwareName b n2 vM vm) pin).1 ∧
    (digitalRead (withFirmwareName b n1 vM vm) pin).2.2 =
      (digitalRead (withFirmwareName b n2 vM vm) pin).2.2 := by
  have hsp : startsWithSp n1 = spFirmware (withFirmwareName b n2 vM vm) := by
    simp [spFirmware, withFirmwareName, h]
  have hw := digitalWrite_rename (withFirmwareName b n2 vM vm) n1 vM vm pin value hsp
  have hr := digitalRead_rename (withFirmwareName b n2 vM vm) n1 vM vm pin hsp
  have hcol : withFirmwareName (withFirmwareName b n2 vM vm) n1 vM vm =
      withFirmwareName b n1 vM vm := rfl
  rw [hcol] at hw hr
  refine ⟨?_, ?_, ?_, ?_, ?_⟩
  · simp [effectivePin, spFirmware, withFirmwareName, h]
  · rw [hw]
  · rw [hw]
  · rw [hr]
  · rw [hr]

/-- Witness for `digital_rw_firmware_name_independent` with the two
non-`'sp'` names `"abc"` and `"xy"`. -/
theorem digital_rw_firmware_name_independent_witness :
    effectivePin (withFirmwareName manyPinsBoard ['a', 'b', 'c'] 1 0) 14 =
      effectivePin (withFirmwareName manyPinsBoard ['x', 'y'] 1 0) 14 ∧
    (digitalWrite (withFirmwareName manyPinsBoard ['a', 'b', 'c'] 1 0) 14 1).writes =
      (digitalWrite (withFirmwareName manyPinsBoard ['x', 'y'] 1 0) 14 1).writes ∧
    (digitalWrite (withFirmwareName manyPinsBoard ['a', 'b', 'c'] 1 0) 14 1).result =
      (digitalWrite (withFirmwareName manyPinsBoard ['x', 'y'] 1 0) 14 1).result ∧
    (digitalRead (withFirmwareName manyPinsBoard ['a', 'b', 'c'] 1 0) 14).1 =
      (digitalRead (withFirmwareName manyPinsBoard ['x', 'y'] 1 0) 14).1 ∧
    (digitalRead (withFirmwareName manyPinsBoard ['a', 'b', 'c'] 1 0) 14).2.2 =
      (digitalRead (withFirmwareName manyPinsBoard ['x', 'y'] 1 0) 14).2.2 :=
  digital_rw_firmware_name_independent manyPinsBoard ['a', 'b', 'c'] ['x', 'y'] 1 0 14 1 (by rfl)

/-! ## C5: capability reply and analog-mapping reply -/

/-- The capability loop appends exactly one pin per 0x7F pair head. -/
theorem capLoop_pins_length (pairs : List (Nat × Nat)) :
    ∀ (capability n : Nat) (b : BoardState),
    (capLoop pairs capability n b).pins.length =
      b.pins.length + pairs.countP (fun q => decide (q.1 = 127)) := by
  induction pairs with
  | nil => intro cap n b; simp [capLoop]
  | cons q rest ih =>
      intro cap n b
      obtain ⟨v, nx⟩ := q
      by_cases hv : v = 127
      · subst hv
        rw [capLoop, if_pos rfl, ih]
        simp [List.countP_cons]
        omega
      · rw [capLoop, if_neg hv]
        by_cases hn : n = 0
        · rw [if_pos hn, ih]
          split_ifs <;> simp [List.countP_cons, hv]
        · rw [if_neg hn, ih]
          simp [List.countP_cons, hv]

/-- Counting a first-component value over a zip counts it over the
first list when the second is at least as long. -/
theorem zip_countP_fst (l1 : List Nat) :
    ∀ l2 : List Nat, l1.length ≤ l2.length →
    ((l1.zip l2).countP (fun q => decide (q.1 = 127))) = l1.count 127 := by
  induction l1 with
  | nil => intro l2 h; simp
  | cons a t ih =>
      intro l2 h
      cases l2 with
      | nil => simp at h
      | cons c t2 =>
          simp only [List.zip_cons_cons, List.countP_cons, List.count_cons]
          rw [ih t2 (by simpa using h)]
          by_cases ha : a = 127 <;> simp [ha]

/-- Emitting `capability-query` never touches the pin array. -/
theorem emitEv_capabilityQuery_pins (b : BoardState) :
    (emitEv b Ev.capabilityQuery).pins = b.pins := by
  by_cases hp : b.pendingCapabilityCb <;> simp [emitEv, hp]

/-- Emitting `analog-mapping-query` (which may run `ready` and
`init`) preserves the pin count and every pin's `analogChannel`. -/
theorem emitEv_analogMappingQuery_pins (b : BoardState) (j : Nat) :
    (emitEv b Ev.analogMappingQuery).pins.length = b.pins.length ∧
    ((emitEv b Ev.analogMappingQuery).pins[j]?).map Pin.analogChannel =
      (b.pins[j]?).map Pin.analogChannel := by
  by_cases hp : b.pendingAnalogMappingCb
  · constructor
    · simp [emitEv, hp, initBoard]
    · simp [emitEv, hp, initBoard, List.getElem?_map]
      cases b.pins[j]? <;> simp
  · simp [emitEv, hp]

/-- When the mapping payload exactly covers the pin array, the
analog-mapping loop succeeds and stores payload byte `k` as pin
`pinIdx + k`'s analog channel. -/
theorem mapLoop_ok (bytes : List Nat) :
    ∀ (pinIdx : Nat) (b : BoardState), pinIdx + bytes.length = b.pins.length →
    ∃ b', mapLoop bytes pinIdx b = Except.ok b' ∧
      b'.pins.length = b.pins.length ∧
      (∀ j, j < pinIdx → b'.pins[j]? = b.pins[j]?) ∧
      (∀ k, k < bytes.length →
        (b'.pins[pinIdx + k]?).map Pin.analogChannel = some (some (bytes.getD k 0))) := by
  induction bytes with
  | nil =>
      intro pinIdx b h
      exact ⟨b, rfl, rfl, fun j _ => rfl, fun k hk => absurd hk (by simp)⟩
  | cons v rest ih =>
      intro pinIdx b h
      have hlt : pinIdx < b.pins.length := by
        simp only [List.length_cons] at h
        omega
      cases hp : b.pins[pinIdx]? with
      | none =>
          rw [List.getElem?_eq_none_iff] at hp
          omega
      | some p =>
          by_cases hv : v = 127
          · subst hv
            have step : mapLoop (127 :: rest) pinIdx b =
                mapLoop rest (pinIdx + 1)
                  { b with pins := b.pins.set pinIdx { p with analogChannel := some 127 } } := by
              simp [mapLoop, hp]
            obtain ⟨b', hml, hlen, hlow, hhigh⟩ := ih (pinIdx + 1)
              { b with pins := b.pins.set pinIdx { p with analogChannel := some 127 } }
              (by simp only [List.length_cons] at h; simp [h]; omega)
            refine ⟨b', by rw [step, hml], by simp at hlen; omega, ?_, ?_⟩
            · intro j hj
              rw [hlow j (by omega)]
              simp [List.getElem?_set_ne (by omega : pinIdx ≠ j)]
            · intro k hk
              cases k with
              | zero =>
                  rw [Nat.add_zero, hlow pinIdx (by omega)]
                  simp [List.getElem?_set_self hlt]
              | succ k' =>
                  have := hhigh k' (by simpa using hk)
                  rw [show pinIdx + (k' + 1) = pinIdx + 1 + k' from by omega]
                  rw [this]
                  simp
          · have step : mapLoop (v :: rest) pinIdx b =
                mapLoop rest (pinIdx + 1)
                  { b with pins := b.pins.set pinIdx { p with analogChannel := some v },
                           analogPins := b.analogPins ++ [pinIdx] } := by
              simp [mapLoop, hp, hv]
            obtain ⟨b', hml, hlen, hlow, hhigh⟩ := ih (pinIdx + 1)
              { b with pins := b.pins.set pinIdx { p with analogChannel := some v },
                       analogPins := b.analogPins ++ [pinIdx] }
              (by simp only [List.length_cons] at h; simp [h]; omega)
            refine ⟨b', by rw [step, hml], by simp at hlen; omega, ?_, ?_⟩
            · intro j hj
              rw [hlow j (by omega)]
              simp [List.getElem?_set_ne (by omega : pinIdx ≠ j)]
            · intro k hk
              cases k with
              | zero =>
                  rw [Nat.add_zero, hlow pinIdx (by omega)]
                  simp [List.getElem?_set_self hlt]
              | succ k' =>
                  have := hhigh k' (by simpa using hk)
                  rw [show pinIdx + (k' + 1) = pinIdx + 1 + k' from by omega]
                  rw [this]
                  simp

/-- C5 amended: decoding a capability-reply frame — from any prior
state, including a repeated reply mid-session, since the handler
resets the pin array before its (then always-true) emptiness check —
yields exactly one pin per 0x7F byte of the frame; and an immediately
following analog-mapping reply **whose payload length equals the pin
count** gives every pin an `analogChannel` that is either the 0x7F
not-analog sentinel or a channel index below 0x7F.  (A shorter
mapping payload leaves pins with no channel at all — see the
counterexample — and a longer one makes the JS handler throw.) -/
theorem capability_then_mapping (b0 : BoardState) (cp mp : List Nat)
    (hb : b0.currentBuffer = [START_SYSEX, CAPABILITY_RESPONSE] ++ cp ++ [END_SYSEX])
    (hmp7 : ∀ x ∈ mp, x ≤ 127) :
    ∃ b1, capabilityResponse b0 = Except.ok b1 ∧
      b1.pins.length = b0.currentBuffer.count 127 ∧
      (mp.length = b1.pins.length →
        ∃ b2, analogMappingResponse
            { b1 with currentBuffer :=
                [START_SYSEX, ANALOG_MAPPING_RESPONSE] ++ mp ++ [END_SYSEX] } =
            Except.ok b2 ∧
          b2.pins.length = b0.currentBuffer.count 127 ∧
          ∀ p ∈ b2.pins, p.analogChannel = some 127 ∨
            ∃ c, c < 127 ∧ p.analogChannel = some c) := by
  have hcount : b0.currentBuffer.count 127 = cp.count 127 := by
    simp [hb, List.count_append, List.count_cons, START_SYSEX, CAPABILITY_RESPONSE, END_SYSEX]
  -- run the capability handler
  have hpayload : (b0.currentBuffer.drop 2).dropLast = cp := by
    rw [hb]
    simp only [List.append_assoc, List.cons_append, List.nil_append, List.drop_succ_cons,
      List.drop_zero]
    exact List.dropLast_concat
  have hlen3 : cp.length ≤ (b0.currentBuffer.drop 3).length := by
    rw [hb]
    simp
  have hcapPairs : (capPairs b0.currentBuffer).countP (fun q => decide (q.1 = 127)) =
      cp.count 127 := by
    rw [capPairs, hpayload]
    exact zip_countP_fst cp _ hlen3
  refine ⟨emitEv (capLoop (capPairs b0.currentBuffer) 0 0
      { b0 with ports := List.replicate 16 0, pins := [] }) Ev.capabilityQuery, ?_, ?_, ?_⟩
  · simp [capabilityResponse]
  · rw [emitEv_capabilityQuery_pins, capLoop_pins_length, hcapPairs, hcount]
    simp
  · intro hlen
    rw [emitEv_capabilityQuery_pins] at hlen
    set bC := capLoop (capPairs b0.currentBuffer) 0 0
      { b0 with ports := List.replicate 16 0, pins := [] } with hbC
    set b1 := emitEv bC Ev.capabilityQuery with hb1
    have hb1pins : b1.pins = bC.pins := emitEv_capabilityQuery_pins bC
    -- run the mapping handler
    set bM : BoardState :=
      { b1 with currentBuffer := [START_SYSEX, ANALOG_MAPPING_RESPONSE] ++ mp ++ [END_SYSEX] }
      with hbM
    have hmpay : (bM.currentBuffer.drop 2).dropLast = mp := by
      show (([START_SYSEX, ANALOG_MAPPING_RESPONSE] ++ mp ++ [END_SYSEX]).drop 2).dropLast = mp
      simp only [List.append_assoc, List.cons_append, List.nil_append, List.drop_succ_cons,
        List.drop_zero]
      exact List.dropLast_concat
    obtain ⟨bL, hml, hlenL, _, hhigh⟩ := mapLoop_ok mp 0 { bM with analogPins := [] }
      (by simp [hbM, hb1pins, ← hlen])
    refine ⟨emitEv bL Ev.analogMappingQuery, ?_, ?_, ?_⟩
    · rw [analogMappingResponse, hmpay, hml]
    · rw [(emitEv_analogMappingQuery_pins bL 0).1, hlenL]
      show ({ bM with analogPins := [] }).pins.length = b0.currentBuffer.count 127
      rw [hbM]
      show b1.pins.length = b0.currentBuffer.count 127
      rw [hb1pins, hbC, capLoop_pins_length, hcapPairs, hcount]
      simp
    · intro p hpmem
      rw [List.mem_iff_getElem?] at hpmem
      obtain ⟨j, hj⟩ := hpmem
      have hjlt : j < (emitEv bL Ev.analogMappingQuery).pins.length := by
        by_contra hge
        rw [List.getElem?_eq_none_iff.mpr (by omega)] at hj
        exact Option.noConfusion hj
      have hpinsM : ({ bM with analogPins := [] } : BoardState).pins.length =
          b1.pins.length := rfl
      have hb1len : b1.pins.length = bC.pins.length := by rw [hb1pins]
      have hjmp : j < mp.length := by
        rw [(emitEv_analogMappingQuery_pins bL j).1, hlenL, hpinsM] at hjlt
        omega
      have hch := (emitEv_analogMappingQuery_pins bL j).2
      rw [hj] at hch
      have hhighj := hhigh j hjmp
      rw [Nat.zero_add] at hhighj
      have hpch : p.analogChannel = some (mp.getD j 0) := by
        have := hch.trans hhighj
        simpa using this
      have hmem : mp.getD j 0 ∈ mp := by
        rw [List.getD_eq_getElem mp 0 hjmp]
        exact List.getElem_mem hjmp
      have hle : mp.getD j 0 ≤ 127 := hmp7 _ hmem
      by_cases hc : mp.getD j 0 = 127
      · left
        rw [hpch, hc]
      · right
        exact ⟨mp.getD j 0, by omega, hpch⟩

/-- A handshaken board holding a complete 2-pin capability frame. -/
def capFrameBoard : BoardState :=
  { pins := [], ports := List.replicate 16 0, analogPins := [],
    currentBuffer := [0xF0, 0x6C, 0x7F, 0x7F, 0xF7], versionReceived := true }

/-- Counterexample to C5 as stated: after the 2-pin capability frame,
an analog-mapping frame with a 1-byte payload decodes fine, but
pin 1's `analogChannel` is unset (`none`) — neither a valid channel
index nor the 0x7F sentinel. -/
theorem capability_mapping_counterexample :
    (capabilityResponse capFrameBoard).toOption.bind (fun b1 =>
      (analogMappingResponse
          { b1 with currentBuffer := [0xF0, 0x6A, 0x00, 0xF7] }).toOption.map
        (fun b2 => (b2.pins.length, (b2.pins[1]?).map Pin.analogChannel))) =
    some (2, some none) := by rfl

/-- Witness for `capability_then_mapping` on `capFrameBoard` with
mapping payload `[0x7F, 0x00]`. -/
theorem capability_then_mapping_witness :
    ∃ b1, capabilityResponse capFrameBoard = Except.ok b1 ∧
      b1.pins.length = capFrameBoard.currentBuffer.count 127 ∧
      ∃ b2, analogMappingResponse
          { b1 with currentBuffer :=
              [START_SYSEX, ANALOG_MAPPING_RESPONSE] ++ [0x7F, 0x00] ++ [END_SYSEX] } =
          Except.ok b2 ∧
        b2.pins.length = capFrameBoard.currentBuffer.count 127 ∧
        ∀ p ∈ b2.pins, p.analogChannel = some 127 ∨
          ∃ c, c < 127 ∧ p.analogChannel = some c := by
  obtain ⟨b1, h1, h2, h3⟩ :=
    capability_then_mapping capFrameBoard [0x7F, 0x7F] [0x7F, 0x00] rfl (by decide)
  exact ⟨b1, h1, h2, h3 (by rw [h2]; rfl)⟩

/-! ## C6: digital-message decode -/

/-- Emitting a per-pin digital event only appends to the log. -/
theorem emitEv_digitalReadPin (b : BoardState) (p v : Nat) :
    emitEv b (Ev.digitalReadPin p v) = { b with events := b.events ++ [Ev.digitalReadPin p v] } :=
  rfl

/-- Emitting the generic digital event only appends to the log. -/
theorem emitEv_digitalRead (b : BoardState) (p v : Nat) :
    emitEv b (Ev.digitalRead p v) = { b with events := b.events ++ [Ev.digitalRead p v] } :=
  rfl

/-- One digital-message loop iteration preserves the pin count. -/
theorem dmStep_pins_length (pv port : Nat) (b : BoardState) (i : Nat) :
    (digitalMessageStep pv port b i).pins.length = b.pins.length := by
  cases hp : b.pins[8 * port + i]? with
  | none => simp [digitalMessageStep, hp]
  | some pin =>
      by_cases hm : pin.mode = some MODES_INPUT ∨ pin.mode = some 0x0B
      · simp only [digitalMessageStep, hp, hm, if_true, emitEv_digitalReadPin,
          emitEv_digitalRead]
        split_ifs <;> simp
      · simp [digitalMessageStep, hp, hm]

/-- Loop iteration `i` touches no pin other than `8*port + i`. -/
theorem dmStep_pins_untouched (pv port : Nat) (b : BoardState) (i j : Nat)
    (hj : 8 * port + i ≠ j) :
    (digitalMessageStep pv port b i).pins[j]? = b.pins[j]? := by
  cases hp : b.pins[8 * port + i]? with
  | none => simp [digitalMessageStep, hp]
  | some pin =>
      by_cases hm : pin.mode = some MODES_INPUT ∨ pin.mode = some 0x0B
      · simp only [digitalMessageStep, hp, hm, if_true, emitEv_digitalReadPin,
          emitEv_digitalRead]
        split_ifs <;> simp [List.getElem?_set_ne hj]
      · simp [digitalMessageStep, hp, hm]

/-- Loop iteration `i` touches no port bit other than bit `i`. -/
theorem dmStep_ports_bit (pv port : Nat) (b : BoardState) (i k : Nat)
    (hk : k ≠ i) (hk32 : k < 32) :
    (jsGetD (digitalMessageStep pv port b i).ports port).testBit k =
      (jsGetD b.ports port).testBit k := by
  cases hp : b.pins[8 * port + i]? with
  | none => simp [digitalMessageStep, hp]
  | some pin =>
      by_cases hm : pin.mode = some MODES_INPUT ∨ pin.mode = some 0x0B
      · simp only [digitalMessageStep, hp, hm, if_true, emitEv_digitalReadPin,
          emitEv_digitalRead]
        have h1 : ∀ x : Nat, (x ||| 1 <<< i).testBit k = x.testBit k := by
          intro x
          rw [Nat.testBit_or, Nat.shiftLeft_eq, one_mul,
            Nat.testBit_two_pow_of_ne (Ne.symm hk), Bool.or_false]
        have h2 : ∀ x : Nat, (x &&& jsNot32 (1 <<< i)).testBit k = x.testBit k := by
          intro x
          rw [Nat.testBit_and, jsNot32, Nat.testBit_xor, Nat.shiftLeft_eq, one_mul,
            show (4294967295 : Nat) = 2 ^ 32 - 1 from rfl, Nat.testBit_two_pow_sub_one,
            Nat.testBit_two_pow_of_ne (Ne.symm hk)]
          simp [hk32]
        split_ifs <;> simp [jsGetD_jsArraySet_self, h1, h2]
      · simp [digitalMessageStep, hp, hm]

/-- Loop iterations only append events. -/
theorem dmStep_events_mono (pv port : Nat) (b : BoardState) (i : Nat) (e : Ev)
    (he : e ∈ b.events) : e ∈ (digitalMessageStep pv port b i).events := by
  cases hp : b.pins[8 * port + i]? with
  | none => simpa [digitalMessageStep, hp] using he
  | some pin =>
      by_cases hm : pin.mode = some MODES_INPUT ∨ pin.mode = some 0x0B
      · simp only [digitalMessageStep, hp, hm, if_true, emitEv_digitalReadPin,
          emitEv_digitalRead]
        split_ifs <;> simp [he]
      · simpa [digitalMessageStep, hp, hm] using he

/-- The effect of loop iteration `i` on its own pin when that pin is
in INPUT or PULLUP mode: new value is the port-value bit, a 0→1
transition sets the `released` event and 1→0 sets `pressed`, the port
bitmask bit is updated, and both digital events are raised. -/
theorem dmStep_active (pv port : Nat) (b : BoardState) (i : Nat) (pin : Pin)
    (hp : b.pins[8 * port + i]? = some pin)
    (hm : pin.mode = some MODES_INPUT ∨ pin.mode = some 0x0B)
    (hi32 : i < 32) :
    ((digitalMessageStep pv port b i).pins[8 * port + i]?).map Pin.value =
      some ((pv >>> (i &&& 0x07)) &&& 0x01) ∧
    (pin.value = 0 ∧ (pv >>> (i &&& 0x07)) &&& 0x01 = 1 →
      ((digitalMessageStep pv port b i).pins[8 * port + i]?).map Pin.event =
        some (some KEY_RELEASED)) ∧
    (pin.value = 1 ∧ (pv >>> (i &&& 0x07)) &&& 0x01 = 0 →
      ((digitalMessageStep pv port b i).pins[8 * port + i]?).map Pin.event =
        some (some KEY_PRESSED)) ∧
    (jsGetD (digitalMessageStep pv port b i).ports port).testBit i =
      decide ((pv >>> (i &&& 0x07)) &&& 0x01 = 1) ∧
    Ev.digitalReadPin (8 * port + i) ((pv >>> (i &&& 0x07)) &&& 0x01) ∈
      (digitalMessageStep pv port b i).events ∧
    Ev.digitalRead (8 * port + i) ((pv >>> (i &&& 0x07)) &&& 0x01) ∈
      (digitalMessageStep pv port b i).events := by
  have hlt : 8 * port + i < b.pins.length := by
    by_contra hge
    rw [List.getElem?_eq_none_iff.mpr (by omega)] at hp
    exact Option.noConfusion hp
  have hcv : (pv >>> (i &&& 0x07)) &&& 0x01 = 0 ∨ (pv >>> (i &&& 0x07)) &&& 0x01 = 1 := by
    have : (pv >>> (i &&& 0x07)) &&& 0x01 ≤ 1 := Nat.and_le_right
    omega
  rcases hcv with hcv | hcv <;>
    simp only [digitalMessageStep, hp, hm, if_true, emitEv_digitalReadPin,
      emitEv_digitalRead, hcv] <;>
    by_cases hv0 : pin.value = 0 <;> by_cases hv1 : pin.value = 1 <;>
    simp [hv0, hv1, List.getElem?_set_self hlt, jsGetD_jsArraySet_self,
      testBit_shl_one_self, testBit_jsNot32_shl_self i hi32, hcv]

/-- Folding the loop over indices that avoid pin `j` leaves it be. -/
theorem dmFold_pins_untouched (pv port : Nat) (is : List Nat) :
    ∀ (b : BoardState) (j : Nat), (∀ i ∈ is, 8 * port + i ≠ j) →
    ((is.foldl (digitalMessageStep pv port) b).pins[j]? = b.pins[j]?) := by
  induction is with
  | nil => intro b j _; rfl
  | cons a t ih =>
      intro b j h
      rw [List.foldl_cons, ih _ j (fun i hi => h i (List.mem_cons_of_mem a hi))]
      exact dmStep_pins_untouched pv port b a j (h a (List.mem_cons_self a t))

/-- Folding the loop over indices that avoid bit `k` preserves it. -/
theorem dmFold_ports_bit (pv port : Nat) (is : List Nat) :
    ∀ (b : BoardState) (k : Nat), (∀ i ∈ is, i ≠ k) → k < 32 →
    (jsGetD (is.foldl (digitalMessageStep pv port) b).ports port).testBit k =
      (jsGetD b.ports port).testBit k := by
  induction is with
  | nil => intro b k _ _; rfl
  | cons a t ih =>
      intro b k h hk32
      rw [List.foldl_cons, ih _ k (fun i hi => h i (List.mem_cons_of_mem a hi)) hk32]
      exact dmStep_ports_bit pv port b a k (Ne.symm (h a (List.mem_cons_self a t))) hk32

/-- The loop fold only appends events. -/
theorem dmFold_events_mono (pv port : Nat) (is : List Nat) :
    ∀ (b : BoardState) (e : Ev), e ∈ b.events →
    e ∈ (is.foldl (digitalMessageStep pv port) b).events := by
  induction is with
  | nil => intro b e he; exact he
  | cons a t ih =>
      intro b e he
      rw [List.foldl_cons]
      exact ih _ e (dmStep_events_mono pv port b a e he)

/-- C6: decoding a digital message `[c0, c1, c2]` updates, for every
pin `i` of the addressed port currently in INPUT or PULLUP mode: the
pin's value becomes bit `i` of the 14-bit port value; a stored 0
turning 1 sets the pin's event to `KEY_RELEASED` and a stored 1
turning 0 sets it to `KEY_PRESSED` (the intentional inversion); bit
`i` of the port bitmask is set to the new value; and both the per-pin
and the generic digital-read events are raised.  A pin of the port in
any other mode is left exactly as it was. -/
theorem digital_message_decode (b : BoardState) (c0 c1 c2 : Nat)
    (hbuf : b.currentBuffer = [c0, c1, c2]) (i : Nat) (hi : i < 8) (pin : Pin)
    (hp : b.pins[8 * (c0 &&& 0x0F) + i]? = some pin) :
    ((pin.mode = some MODES_INPUT ∨ pin.mode = some 0x0B) →
      ((digitalMessageResponse b).pins[8 * (c0 &&& 0x0F) + i]?).map Pin.value =
        some (((c1 ||| (c2 <<< 7)) >>> i) &&& 0x01) ∧
      (pin.value = 0 ∧ ((c1 ||| (c2 <<< 7)) >>> i) &&& 0x01 = 1 →
        ((digitalMessageResponse b).pins[8 * (c0 &&& 0x0F) + i]?).map Pin.event =
          some (some KEY_RELEASED)) ∧
      (pin.value = 1 ∧ ((c1 ||| (c2 <<< 7)) >>> i) &&& 0x01 = 0 →
        ((digitalMessageResponse b).pins[8 * (c0 &&& 0x0F) + i]?).map Pin.event =
          some (some KEY_PRESSED)) ∧
      (jsGetD (digitalMessageResponse b).ports (c0 &&& 0x0F)).testBit i =
        decide (((c1 ||| (c2 <<< 7)) >>> i) &&& 0x01 = 1) ∧
      Ev.digitalReadPin (8 * (c0 &&& 0x0F) + i) (((c1 ||| (c2 <<< 7)) >>> i) &&& 0x01) ∈
        (digitalMessageResponse b).events ∧
      Ev.digitalRead (8 * (c0 &&& 0x0F) + i) (((c1 ||| (c2 <<< 7)) >>> i) &&& 0x01) ∈
        (digitalMessageResponse b).events) ∧
    ((pin.mode ≠ some MODES_INPUT ∧ pin.mode ≠ some 0x0B) →
      (digitalMessageResponse b).pins[8 * (c0 &&& 0x0F) + i]? = some pin) := by
  have hi7 : i &&& 0x07 = i := by
    have := Nat.and_pow_two_sub_one_eq_mod i 3
    norm_num at this
    rw [this]
    omega
  have hrun : digitalMessageResponse b =
      (List.range 8).foldl (digitalMessageStep (c1 ||| (c2 <<< 7)) (c0 &&& 0x0F)) b := by
    simp [digitalMessageResponse, hbuf, jsGetD]
  have hsplit : List.range 8 = List.range' 0 i ++ i :: List.range' (i + 1) (7 - i) := by
    rw [List.range_eq_range']
    have e1 := List.range'_append 0 i (8 - i) 1
    rw [one_mul, Nat.zero_add] at e1
    rw [show (8:Nat) = (8 - i) + i from by omega, ← e1,
      show 8 - i = (7 - i) + 1 from by omega, List.range'_succ]
  have hfold : digitalMessageResponse b =
      (List.range' (i + 1) (7 - i)).foldl (digitalMessageStep (c1 ||| (c2 <<< 7)) (c0 &&& 0x0F))
        (digitalMessageStep (c1 ||| (c2 <<< 7)) (c0 &&& 0x0F)
          ((List.range' 0 i).foldl (digitalMessageStep (c1 ||| (c2 <<< 7)) (c0 &&& 0x0F)) b) i) := by
    rw [hrun, hsplit, List.foldl_append, List.foldl_cons]
  have hmemL1 : ∀ x ∈ List.range' 0 i, 8 * (c0 &&& 0x0F) + x ≠ 8 * (c0 &&& 0x0F) + i := by
    intro x hx
    rw [List.mem_range'] at hx
    obtain ⟨k, hk, hxk⟩ := hx
    omega
  have hmemL2ne : ∀ x ∈ List.range' (i + 1) (7 - i), 8 * (c0 &&& 0x0F) + x ≠ 8 * (c0 &&& 0x0F) + i := by
    intro x hx
    rw [List.mem_range'] at hx
    obtain ⟨k, hk, hxk⟩ := hx
    omega
  have hmemL2k : ∀ x ∈ List.range' (i + 1) (7 - i), x ≠ i := by
    intro x hx
    rw [List.mem_range'] at hx
    obtain ⟨k, hk, hxk⟩ := hx
    omega
  have hB1p : ((List.range' 0 i).foldl (digitalMessageStep (c1 ||| (c2 <<< 7)) (c0 &&& 0x0F)) b).pins[8 * (c0 &&& 0x0F) + i]? = some pin := by
    rw [dmFold_pins_untouched _ _ _ _ _ hmemL1]
    exact hp
  constructor
  · intro hm
    obtain ⟨hval, hrel, hprs, hbit, hev1, hev2⟩ :=
      dmStep_active (c1 ||| (c2 <<< 7)) (c0 &&& 0x0F) _ i pin hB1p hm (by omega)
    rw [hi7] at hval hrel hprs hbit hev1 hev2
    refine ⟨?_, ?_, ?_, ?_, ?_, ?_⟩
    · rw [hfold, dmFold_pins_untouched _ _ _ _ _ hmemL2ne]
      exact hval
    · intro hc
      rw [hfold, dmFold_pins_untouched _ _ _ _ _ hmemL2ne]
      exact hrel hc
    · intro hc
      rw [hfold, dmFold_pins_untouched _ _ _ _ _ hmemL2ne]
      exact hprs hc
    · rw [hfold, dmFold_ports_bit _ _ _ _ _ hmemL2k (by omega)]
      exact hbit
    · rw [hfold]
      exact dmFold_events_mono _ _ _ _ _ hev1
    · rw [hfold]
      exact dmFold_events_mono _ _ _ _ _ hev2
  · intro hm
    have hstep : digitalMessageStep (c1 ||| (c2 <<< 7)) (c0 &&& 0x0F)
        ((List.range' 0 i).foldl (digitalMessageStep (c1 ||| (c2 <<< 7)) (c0 &&& 0x0F)) b) i =
        (List.range' 0 i).foldl (digitalMessageStep (c1 ||| (c2 <<< 7)) (c0 &&& 0x0F)) b := by
      have hm' : ¬ (pin.mode = some MODES_INPUT ∨ pin.mode = some 0x0B) := by
        push_neg
        exact hm
      simp [digitalMessageStep, hB1p, hm']
    rw [hfold, hstep, dmFold_pins_untouched _ _ _ _ _ hmemL2ne, hB1p]

/-- An INPUT-mode pin with stored value 0. -/
def digiPin0 : Pin :=
  { supportedModes := [ MODES_INPUT, MODES_OUTPUT], value := 0, report := 1,
    mode := some MODES_INPUT }

/-- An OUTPUT-mode pin (not watched by the digital decoder). -/
def digiPin1 : Pin :=
  { supportedModes := [ MODES_INPUT, MODES_OUTPUT], value := 0, report := 1,
    mode := some MODES_OUTPUT }

/-- A handshaken 8-pin board holding the frame `90 05 00`. -/
def digiBoard : BoardState :=
  { pins := [digiPin0, digiPin1] ++ List.replicate 6 digiPin1,
    ports := List.replicate 16 0, analogPins := [],
    currentBuffer := [0x90, 0x05, 0x00], versionReceived := true }

/-- Witness for `digital_message_decode` on `digiBoard`: pin 0 (INPUT)
is updated with a released edge; pin 1 (OUTPUT) is untouched. -/
theorem digital_message_decode_witness :
    (((digitalMessageResponse digiBoard).pins[8 * (0x90 &&& 0x0F) + 0]?).map Pin.value =
        some (((0x05 ||| (0x00 <<< 7)) >>> 0) &&& 0x01) ∧
      (digiPin0.value = 0 ∧ ((0x05 ||| (0x00 <<< 7)) >>> 0) &&& 0x01 = 1 →
        ((digitalMessageResponse digiBoard).pins[8 * (0x90 &&& 0x0F) + 0]?).map Pin.event =
          some (some KEY_RELEASED)) ∧
      (digiPin0.value = 1 ∧ ((0x05 ||| (0x00 <<< 7)) >>> 0) &&& 0x01 = 0 →
        ((digitalMessageResponse digiBoard).pins[8 * (0x90 &&& 0x0F) + 0]?).map Pin.event =
          some (some KEY_PRESSED)) ∧
      (jsGetD (digitalMessageResponse digiBoard).ports (0x90 &&& 0x0F)).testBit 0 =
        decide (((0x05 ||| (0x00 <<< 7)) >>> 0) &&& 0x01 = 1) ∧
      Ev.digitalReadPin (8 * (0x90 &&& 0x0F) + 0) (((0x05 ||| (0x00 <<< 7)) >>> 0) &&& 0x01) ∈
        (digitalMessageResponse digiBoard).events ∧
      Ev.digitalRead (8 * (0x90 &&& 0x0F) + 0) (((0x05 ||| (0x00 <<< 7)) >>> 0) &&& 0x01) ∈
        (digitalMessageResponse digiBoard).events) ∧
    (digitalMessageResponse digiBoard).pins[8 * (0x90 &&& 0x0F) + 1]? = some digiPin1 :=
  ⟨(digital_message_decode digiBoard 0x90 0x05 0x00 rfl 0 (by decide) digiPin0 rfl).1
      (Or.inl rfl),
   (digital_message_decode digiBoard 0x90 0x05 0x00 rfl 1 (by decide) digiPin1 rfl).2
      (by decide)⟩
